import Mathlib

/-!
Verification of the JSON→CSV conversion core of `json_to_csv_app.py`.

The embedding covers the two pure components:
* `flatten_json` (source lines 9–36): recursive flattening of a parsed
  JSON value into a Python dict of path-keyed entries;
* `json_to_csv` (source lines 38–82): the dispatcher that parses input,
  branches on the root type, and builds a tabular result (a pandas
  DataFrame, modelled here as `Frame`).

Python dicts are modelled as association lists with Python's insertion
semantics (first-insertion key order, last-write-wins values).
-/

set_option autoImplicit false

namespace JsonToCsv

/-- A parsed JSON value, the universal sum type produced by `json.loads`.
Numbers are modelled as integers (the claims under study do not involve
floating-point behaviour). -/
inductive JsonVal where
  | null
  | bool (b : Bool)
  | num (n : Int)
  | str (s : String)
  | arr (elems : List JsonVal)
  | obj (fields : List (String × JsonVal))

/-- `isinstance(v, dict)` -/
def JsonVal.isObj : JsonVal → Bool
  | .obj _ => true
  | _ => false

/-- `isinstance(v, list)` -/
def JsonVal.isArr : JsonVal → Bool
  | .arr _ => true
  | _ => false

/-- A scalar JSON value: null, boolean, number or string. -/
def JsonVal.isScalar (v : JsonVal) : Bool := !v.isObj && !v.isArr

/-- First entry with the given key in an association list (Python dicts have
unique keys, so on dict-shaped lists this is the dict lookup `d[k]`). -/
def lookupVal (k : String) : List (String × JsonVal) → Option JsonVal
  | [] => none
  | p :: rest => if p.1 = k then some p.2 else lookupVal k rest

/-- Value of the LAST entry with the given key, if any. -/
def lastVal (k : String) (l : List (String × JsonVal)) : Option JsonVal :=
  l.foldl (fun r p => if p.1 = k then some p.2 else r) none

/-- Number of entries with the given key. -/
def countKey (k : String) (l : List (String × JsonVal)) : Nat :=
  (l.filter (fun p => p.1 = k)).length

/-- One Python dict assignment `d[k] = v`: if the key is present its value is
updated in place (original position kept), otherwise the pair is appended. -/
def pyDictInsert (d : List (String × JsonVal)) (k : String) (v : JsonVal) :
    List (String × JsonVal) :=
  if d.any (fun p => p.1 = k) then
    d.map (fun p => if p.1 = k then (k, v) else p)
  else
    d ++ [(k, v)]

/-- Python's `dict(items)`: items inserted left to right; a repeated key keeps
its first position but receives the last value. -/
def pyDict (items : List (String × JsonVal)) : List (String × JsonVal) :=
  items.foldl (fun d p => pyDictInsert d p.1 p.2) []

/-- `f"{parent_key}{sep}{k}" if parent_key else k` (source line 16). -/
def mkKey (parentKey sep k : String) : String :=
  if parentKey = "" then k else parentKey ++ sep ++ k

mutual

/-- The items generated for the fields of a dict (the loop at source
lines 15–26 of `flatten_json`). -/
def flattenObjItems : List (String × JsonVal) → String → String →
    List (String × JsonVal)
  | [], _, _ => []
  | (k, v) :: rest, parentKey, sep =>
    (match v with
     | .obj fields => flattenObjItems fields (mkKey parentKey sep k) sep
     | .arr elems => flattenArrItems elems 0 (mkKey parentKey sep k) sep
     | x => [(mkKey parentKey sep k, x)]) ++ flattenObjItems rest parentKey sep

/-- The items generated for the elements of a list starting at index `i`
(the loops at source lines 20–24 and 28–32 of `flatten_json`): dict
elements recurse under key `base + sep + i`, any other element (scalars,
and also nested lists) is appended directly under that key. -/
def flattenArrItems : List JsonVal → Nat → String → String →
    List (String × JsonVal)
  | [], _, _, _ => []
  | item :: rest, i, base, sep =>
    (match item with
     | .obj fields => flattenObjItems fields (base ++ sep ++ toString i) sep
     | x => [(base ++ sep ++ toString i, x)]) ++ flattenArrItems rest (i + 1) base sep

end

/-- The full `items` list built by `flatten_json(data, parent_key, sep)`
before the final `dict(items)` (source lines 13–34). -/
def flattenItems (data : JsonVal) (parentKey sep : String) :
    List (String × JsonVal) :=
  match data with
  | .obj fields => flattenObjItems fields parentKey sep
  | .arr elems => flattenArrItems elems 0 parentKey sep
  | x => [(parentKey, x)]

/-- `flatten_json(data, parent_key, sep)` (source lines 9–36): the generated
items converted to a Python dict. -/
def flatten_json (data : JsonVal) (parentKey sep : String) :
    List (String × JsonVal) :=
  pyDict (flattenItems data parentKey sep)

/-! ### The tabularizer (`json_to_csv`, source lines 38–82) -/

/-- The tabular result (a pandas DataFrame as far as the conversion core is
concerned): ordered column names and ordered rows; a missing cell is `none`
(pandas `NaN`, rendered as an empty CSV field). -/
structure Frame where
  columns : List String
  rows : List (List (Option JsonVal))

/-- The union of key lists in first-seen order (how pandas assembles the
columns of a DataFrame built from a list of dicts). -/
def firstSeen (l : List String) : List String :=
  l.foldl (fun acc k => if k ∈ acc then acc else acc ++ [k]) []

/-- `pd.DataFrame(records)` for a list of dict records: columns are the union
of the record keys in first-seen order; one row per record; a record lacking
a column yields an empty (`none`) cell. -/
def dfFromRecords (recs : List (List (String × JsonVal))) : Frame :=
  let cols := firstSeen (recs.flatMap (fun r => r.map Prod.fst))
  ⟨cols, recs.map (fun r => cols.map (fun c => lookupVal c r))⟩

/-- The error taxonomy of the conversion dispatcher: the `json.JSONDecodeError`
handler (source line 77) and the generic handler (source line 80). -/
inductive ErrKind where
  | invalidJson (msg : String)
  | conversionError (msg : String)

/-- Failures raised inside tabularization surface through the generic
`except Exception` handler as a conversion error (source lines 80–82). -/
def mapErr : Except String Frame → Except ErrKind Frame
  | .ok f => .ok f
  | .error e => .error (.conversionError e)

/-- Modelled from pandas: the per-record flattening `pd.json_normalize`
applies to one dict — nested dicts become dotted-path columns, any other
value (scalars and lists alike) is kept raw. -/
def normalizeFields : List (String × JsonVal) → String → List (String × JsonVal)
  | [], _ => []
  | (k, v) :: rest, pre =>
    (match v with
     | .obj fields => normalizeFields fields (if pre = "" then k else pre ++ "." ++ k)
     | x => [(if pre = "" then k else pre ++ "." ++ k, x)]) ++ normalizeFields rest pre

/-- Modelled from pandas: `pd.json_normalize(l)` for a list – each dict
element becomes one row with dotted-path columns; non-dict elements make
pandas raise, which the caller's generic handler turns into an error. -/
def jsonNormalize (l : List JsonVal) : Except String Frame :=
  if l.all (fun x => x.isObj) then
    .ok (dfFromRecords (l.map (fun x =>
      match x with
      | .obj fields => normalizeFields fields ""
      | _ => [])))
  else .error "cannot normalize non-object elements"

/-- Modelled from pandas: `pd.DataFrame(l)` for a plain Python list – a list
of dicts becomes one row per dict with the values stored as-is (un-flattened);
a list of non-dicts becomes a single anonymous column; mixing both raises,
surfacing as a conversion error. -/
def pdDataFrame (l : List JsonVal) : Except String Frame :=
  if l.all (fun x => x.isObj) then
    .ok (dfFromRecords (l.map (fun x =>
      match x with
      | .obj fields => fields
      | _ => [])))
  else if l.all (fun x => !x.isObj) then
    .ok ⟨["0"], l.map (fun v => [some v])⟩
  else .error "mixed dict and non-dict rows"

/-- One element of an array root under `flatten_nested` (source lines 54–58):
dict elements are flattened with the default arguments, anything else becomes
the one-column record `{"value": element}`. -/
def recordOf (item : JsonVal) : List (String × JsonVal) :=
  match item with
  | .obj _ => flatten_json item "" "_"
  | _ => [("value", item)]

/-- `json_to_csv(json_data, flatten_nested, normalize_data)` (source lines
38–82). The input is the result of `json.loads`: `.error msg` stands for a
`json.JSONDecodeError` carrying the parser's diagnostic message. On success
the DataFrame is returned; on failure the corresponding error kind. -/
def json_to_csv (input : Except String JsonVal)
    (flatten_nested normalize_data : Bool) : Except ErrKind Frame :=
  match input with
  | .error e => .error (.invalidJson e)
  | .ok data =>
    match data with
    | .arr items =>
      if flatten_nested then .ok (dfFromRecords (items.map recordOf))
      else if normalize_data then mapErr (jsonNormalize items)
      else mapErr (pdDataFrame items)
    | .obj fields =>
      if flatten_nested then .ok (dfFromRecords [flatten_json (.obj fields) "" "_"])
      else if normalize_data then mapErr (jsonNormalize [.obj fields])
      else mapErr (pdDataFrame [.obj fields])
    | v => .ok ⟨["value"], [[some v]]⟩

/-! ### Lemmas about the Python-dict model -/

theorem lookupVal_eq_none_of_not_mem_keys {k : String} {l : List (String × JsonVal)}
    (h : k ∉ l.map Prod.fst) : lookupVal k l = none := by
  induction l with
  | nil => rfl
  | cons p rest ih =>
    simp only [List.map_cons, List.mem_cons, not_or] at h
    have hne : ¬ p.1 = k := fun he => h.1 he.symm
    simp only [lookupVal]
    rw [if_neg hne]
    exact ih h.2

theorem lastVal_nil (k : String) : lastVal k [] = none := rfl

theorem lastVal_foldl (k : String) (l : List (String × JsonVal)) :
    ∀ acc : Option JsonVal,
      l.foldl (fun r p => if p.1 = k then some p.2 else r) acc =
        match lastVal k l with
        | some v => some v
        | none => acc := by
  induction l with
  | nil => intro acc; rfl
  | cons p rest ih =>
    intro acc
    have hl : lastVal k (p :: rest) =
        match lastVal k rest with
        | some v => some v
        | none => if p.1 = k then some p.2 else none := by
      simp only [lastVal, List.foldl_cons]
      exact ih (if p.1 = k then some p.2 else none)
    simp only [List.foldl_cons, ih, hl]
    cases lastVal k rest with
    | some v => rfl
    | none => by_cases hpk : p.1 = k <;> simp [hpk]

theorem lastVal_cons (k : String) (p : String × JsonVal) (l : List (String × JsonVal)) :
    lastVal k (p :: l) =
      match lastVal k l with
      | some v => some v
      | none => if p.1 = k then some p.2 else none := by
  simp only [lastVal, List.foldl_cons]
  exact lastVal_foldl k l (if p.1 = k then some p.2 else none)

theorem lookupVal_map_set_self {d : List (String × JsonVal)} {k : String} (v : JsonVal)
    (h : d.any (fun p => p.1 = k) = true) :
    lookupVal k (d.map (fun p => if p.1 = k then (k, v) else p)) = some v := by
  induction d with
  | nil => simp at h
  | cons p rest ih =>
    by_cases hpk : p.1 = k
    · simp [lookupVal, hpk]
    · simp only [List.any_cons, Bool.or_eq_true, decide_eq_true_eq] at h
      rcases h with h | h
      · exact absurd h hpk
      · simp only [List.map_cons, if_neg hpk, lookupVal, if_neg hpk]
        exact ih h

theorem lookupVal_map_set_other {d : List (String × JsonVal)} {k k' : String} (v : JsonVal)
    (h : k' ≠ k) :
    lookupVal k (d.map (fun p => if p.1 = k' then (k', v) else p)) = lookupVal k d := by
  induction d with
  | nil => rfl
  | cons p rest ih =>
    by_cases hpk : p.1 = k'
    · simp only [List.map_cons, if_pos hpk, lookupVal, if_neg h, if_neg (hpk ▸ h)]
      exact ih
    · simp only [List.map_cons, if_neg hpk, lookupVal]
      by_cases hk : p.1 = k
      · simp [hk]
      · simp only [if_neg hk]
        exact ih

theorem lookupVal_append_single_self {d : List (String × JsonVal)} {k : String} (v : JsonVal)
    (h : d.any (fun p => p.1 = k) = false) :
    lookupVal k (d ++ [(k, v)]) = some v := by
  induction d with
  | nil => simp [lookupVal]
  | cons p rest ih =>
    simp only [List.any_cons, Bool.or_eq_false_iff, decide_eq_false_iff_not] at h
    simp only [List.cons_append, lookupVal, if_neg h.1]
    exact ih (by simpa using h.2)

theorem lookupVal_append_single_other {d : List (String × JsonVal)} {k k' : String} (v : JsonVal)
    (h : k' ≠ k) :
    lookupVal k (d ++ [(k', v)]) = lookupVal k d := by
  induction d with
  | nil => simp [lookupVal, if_neg h]
  | cons p rest ih =>
    simp only [List.cons_append, lookupVal]
    by_cases hk : p.1 = k
    · simp [hk]
    · simp only [if_neg hk]
      exact ih

theorem lookupVal_pyDictInsert (d : List (String × JsonVal)) (k k' : String) (v : JsonVal) :
    lookupVal k (pyDictInsert d k' v) = if k' = k then some v else lookupVal k d := by
  by_cases hk : k' = k
  · subst hk
    rw [if_pos rfl]
    unfold pyDictInsert
    cases hany : d.any (fun p => p.1 = k') with
    | true => rw [if_pos rfl]; exact lookupVal_map_set_self v hany
    | false =>
      rw [if_neg (by simp)]
      exact lookupVal_append_single_self v hany
  · rw [if_neg hk]
    unfold pyDictInsert
    cases hany : d.any (fun p => p.1 = k') with
    | true => rw [if_pos rfl]; exact lookupVal_map_set_other v hk
    | false =>
      rw [if_neg (by simp)]
      exact lookupVal_append_single_other v hk

theorem lookupVal_pyDict_foldl (k : String) (items : List (String × JsonVal)) :
    ∀ acc : List (String × JsonVal),
      lookupVal k (items.foldl (fun d p => pyDictInsert d p.1 p.2) acc) =
        match lastVal k items with
        | some v => some v
        | none => lookupVal k acc := by
  induction items with
  | nil => intro acc; rfl
  | cons p rest ih =>
    intro acc
    simp only [List.foldl_cons, ih, lastVal_cons, lookupVal_pyDictInsert]
    cases lastVal k rest with
    | some v => rfl
    | none => by_cases hpk : p.1 = k <;> simp [hpk]

/-- Looking a key up in the final dict returns the value of the LAST item
generated with that key (Python dict last-write-wins). -/
theorem lookupVal_pyDict (k : String) (items : List (String × JsonVal)) :
    lookupVal k (pyDict items) = lastVal k items := by
  unfold pyDict
  rw [lookupVal_pyDict_foldl]
  cases lastVal k items <;> rfl

theorem countKey_pos_of_mem {k : String} {v : JsonVal} {l : List (String × JsonVal)}
    (h : (k, v) ∈ l) : 0 < countKey k l := by
  have hm : (k, v) ∈ l.filter (fun p => p.1 = k) := List.mem_filter.2 ⟨h, by simp⟩
  unfold countKey
  exact List.length_pos.2 (List.ne_nil_of_mem hm)

theorem countKey_cons_pos (k : String) (p : String × JsonVal) (l : List (String × JsonVal))
    (hpk : p.1 = k) : countKey k (p :: l) = countKey k l + 1 := by
  simp [countKey, List.filter_cons, hpk]

theorem countKey_cons_neg (k : String) (p : String × JsonVal) (l : List (String × JsonVal))
    (hpk : ¬ p.1 = k) : countKey k (p :: l) = countKey k l := by
  simp [countKey, List.filter_cons, hpk]

theorem lastVal_eq_none_of_countKey_zero {k : String} {l : List (String × JsonVal)}
    (h : countKey k l = 0) : lastVal k l = none := by
  induction l with
  | nil => rfl
  | cons p rest ih =>
    by_cases hpk : p.1 = k
    · rw [countKey_cons_pos k p rest hpk] at h
      omega
    · rw [countKey_cons_neg k p rest hpk] at h
      rw [lastVal_cons, ih h, if_neg hpk]

theorem lastVal_eq_of_countKey_one {k : String} {v : JsonVal} {l : List (String × JsonVal)}
    (hcount : countKey k l = 1) (hmem : (k, v) ∈ l) : lastVal k l = some v := by
  induction l with
  | nil => simp at hmem
  | cons p rest ih =>
    rcases List.mem_cons.1 hmem with heq | hmemr
    · subst heq
      rw [countKey_cons_pos k (k, v) rest rfl] at hcount
      rw [lastVal_cons, lastVal_eq_none_of_countKey_zero (by omega)]
      simp
    · by_cases hpk : p.1 = k
      · rw [countKey_cons_pos k p rest hpk] at hcount
        have hzero : countKey k rest = 0 := by omega
        exact absurd (countKey_pos_of_mem hmemr) (by omega)
      · rw [countKey_cons_neg k p rest hpk] at hcount
        rw [lastVal_cons, ih hcount hmemr]

/-- When a key is generated exactly once among the items, `flatten_json` maps
it to the corresponding value. -/
theorem lookupVal_flatten_of_unique {k : String} {v : JsonVal} {data : JsonVal}
    {pk sep : String}
    (hcount : countKey k (flattenItems data pk sep) = 1)
    (hmem : (k, v) ∈ flattenItems data pk sep) :
    lookupVal k (flatten_json data pk sep) = some v := by
  unfold flatten_json
  rw [lookupVal_pyDict, lastVal_eq_of_countKey_one hcount hmem]

/-! ### Which items `flatten_json` generates -/

theorem mem_flattenObjItems_scalar {l : List (String × JsonVal)} {k : String} {v : JsonVal}
    (pk sep : String) (hmem : (k, v) ∈ l) (hobj : v.isObj = false) (harr : v.isArr = false) :
    (mkKey pk sep k, v) ∈ flattenObjItems l pk sep := by
  induction l with
  | nil => simp at hmem
  | cons p rest ih =>
    rcases List.mem_cons.1 hmem with heq | hmemr
    · subst heq
      cases v with
      | obj fields => simp [JsonVal.isObj] at hobj
      | arr elems => simp [JsonVal.isArr] at harr
      | null => simp [flattenObjItems]
      | bool b => simp [flattenObjItems]
      | num n => simp [flattenObjItems]
      | str s => simp [flattenObjItems]
    · obtain ⟨k', v'⟩ := p
      cases v' <;>
        (simp only [flattenObjItems]
         exact List.mem_append.2 (Or.inr (ih hmemr)))

theorem mem_flattenObjItems_of_obj {l l2 : List (String × JsonVal)} {k : String}
    {x : String × JsonVal} (pk sep : String) (hmem : (k, JsonVal.obj l2) ∈ l)
    (hx : x ∈ flattenObjItems l2 (mkKey pk sep k) sep) :
    x ∈ flattenObjItems l pk sep := by
  induction l with
  | nil => simp at hmem
  | cons p rest ih =>
    rcases List.mem_cons.1 hmem with heq | hmemr
    · subst heq
      simp only [flattenObjItems]
      exact List.mem_append.2 (Or.inl hx)
    · obtain ⟨k', v'⟩ := p
      cases v' <;>
        (simp only [flattenObjItems]
         exact List.mem_append.2 (Or.inr (ih hmemr)))

theorem mem_flattenObjItems_of_arr {l : List (String × JsonVal)} {a : List JsonVal}
    {k : String} {x : String × JsonVal} (pk sep : String) (hmem : (k, JsonVal.arr a) ∈ l)
    (hx : x ∈ flattenArrItems a 0 (mkKey pk sep k) sep) :
    x ∈ flattenObjItems l pk sep := by
  induction l with
  | nil => simp at hmem
  | cons p rest ih =>
    rcases List.mem_cons.1 hmem with heq | hmemr
    · subst heq
      simp only [flattenObjItems]
      exact List.mem_append.2 (Or.inl hx)
    · obtain ⟨k', v'⟩ := p
      cases v' <;>
        (simp only [flattenObjItems]
         exact List.mem_append.2 (Or.inr (ih hmemr)))

theorem mem_flattenArrItems_of_obj {l3 : List (String × JsonVal)} {x : String × JsonVal}
    {base sep : String} :
    ∀ (a : List JsonVal) (i0 j : Nat), a[j]? = some (JsonVal.obj l3) →
      x ∈ flattenObjItems l3 (base ++ sep ++ toString (i0 + j)) sep →
      x ∈ flattenArrItems a i0 base sep := by
  intro a
  induction a with
  | nil => intro i0 j h _; simp at h
  | cons item rest ih =>
    intro i0 j hget hx
    cases j with
    | zero =>
      simp only [List.getElem?_cons_zero, Option.some_inj] at hget
      subst hget
      rw [Nat.add_zero] at hx
      simp only [flattenArrItems]
      exact List.mem_append.2 (Or.inl hx)
    | succ j' =>
      simp only [List.getElem?_cons_succ] at hget
      have hx' : x ∈ flattenObjItems l3 (base ++ sep ++ toString ((i0 + 1) + j')) sep := by
        have harith : (i0 + 1) + j' = i0 + (j' + 1) := by omega
        rw [harith]
        exact hx
      cases item <;>
        (simp only [flattenArrItems]
         exact List.mem_append.2 (Or.inr (ih (i0 + 1) j' hget hx')))

theorem mem_flattenArrItems_scalar {v : JsonVal} {base sep : String}
    (hobj : v.isObj = false) :
    ∀ (a : List JsonVal) (i0 j : Nat), a[j]? = some v →
      (base ++ sep ++ toString (i0 + j), v) ∈ flattenArrItems a i0 base sep := by
  intro a
  induction a with
  | nil => intro i0 j h; simp at h
  | cons item rest ih =>
    intro i0 j hget
    cases j with
    | zero =>
      simp only [List.getElem?_cons_zero, Option.some_inj] at hget
      subst hget
      rw [Nat.add_zero]
      cases item with
      | obj fields => simp [JsonVal.isObj] at hobj
      | arr elems => simp [flattenArrItems]
      | null => simp [flattenArrItems]
      | bool b => simp [flattenArrItems]
      | num n => simp [flattenArrItems]
      | str s => simp [flattenArrItems]
    | succ j' =>
      simp only [List.getElem?_cons_succ] at hget
      have harith : i0 + (j' + 1) = (i0 + 1) + j' := by omega
      rw [harith]
      cases item <;>
        (simp only [flattenArrItems]
         exact List.mem_append.2 (Or.inr (ih (i0 + 1) j' hget)))

/-! ### Values stored by the flattener are never objects -/

theorem mem_pyDictInsert {q : String × JsonVal} {d : List (String × JsonVal)}
    {k : String} {v : JsonVal} (h : q ∈ pyDictInsert d k v) : q ∈ d ∨ q = (k, v) := by
  unfold pyDictInsert at h
  split at h
  · rcases List.mem_map.1 h with ⟨p, hp, hq⟩
    by_cases hpk : p.1 = k
    · rw [if_pos hpk] at hq
      exact Or.inr hq.symm
    · rw [if_neg hpk] at hq
      exact Or.inl (hq ▸ hp)
  · rcases List.mem_append.1 h with h1 | h1
    · exact Or.inl h1
    · exact Or.inr (by simpa using h1)

theorem mem_pyDict {q : String × JsonVal} {items : List (String × JsonVal)}
    (h : q ∈ pyDict items) : q ∈ items := by
  have haux : ∀ (l acc : List (String × JsonVal)),
      q ∈ l.foldl (fun d p => pyDictInsert d p.1 p.2) acc → q ∈ acc ∨ q ∈ l := by
    intro l
    induction l with
    | nil => intro acc h'; exact Or.inl h'
    | cons p rest ih =>
      intro acc h'
      obtain ⟨a, b⟩ := p
      rcases ih _ h' with h1 | h1
      · rcases mem_pyDictInsert h1 with h2 | h2
        · exact Or.inl h2
        · exact Or.inr (List.mem_cons.2 (Or.inl h2))
      · exact Or.inr (List.mem_cons.2 (Or.inr h1))
  rcases haux items [] h with h1 | h1
  · simp at h1
  · exact h1

theorem flattenItems_val_not_obj_aux :
    (∀ (l : List (String × JsonVal)) (pk sep : String),
      ∀ q ∈ flattenObjItems l pk sep, q.2.isObj = false) ∧
    (∀ (a : List JsonVal) (i0 : Nat) (base sep : String),
      ∀ q ∈ flattenArrItems a i0 base sep, q.2.isObj = false) := by
  refine flattenObjItems.mutual_induct
    (fun l pk sep => ∀ q ∈ flattenObjItems l pk sep, q.2.isObj = false)
    (fun a i0 base sep => ∀ q ∈ flattenArrItems a i0 base sep, q.2.isObj = false)
    ?_ ?_ ?_ ?_
  · intro pk sep q hq
    simp [flattenObjItems] at hq
  · intro k v rest pk sep ih1 ih2 q hq
    cases v with
    | obj fields =>
      simp only [flattenObjItems] at hq
      rcases List.mem_append.1 hq with h | h
      · exact ih1 q h
      · exact ih2 q h
    | arr elems =>
      simp only [flattenObjItems] at hq
      rcases List.mem_append.1 hq with h | h
      · exact ih1 q h
      · exact ih2 q h
    | null =>
      simp only [flattenObjItems] at hq
      rcases List.mem_append.1 hq with h | h
      · rcases List.mem_singleton.1 h with rfl
        rfl
      · exact ih2 q h
    | bool b =>
      simp only [flattenObjItems] at hq
      rcases List.mem_append.1 hq with h | h
      · rcases List.mem_singleton.1 h with rfl
        rfl
      · exact ih2 q h
    | num n =>
      simp only [flattenObjItems] at hq
      rcases List.mem_append.1 hq with h | h
      · rcases List.mem_singleton.1 h with rfl
        rfl
      · exact ih2 q h
    | str s =>
      simp only [flattenObjItems] at hq
      rcases List.mem_append.1 hq with h | h
      · rcases List.mem_singleton.1 h with rfl
        rfl
      · exact ih2 q h
  · intro i0 base sep q hq
    simp [flattenArrItems] at hq
  · intro item rest i base sep ih1 ih2 q hq
    cases item with
    | obj fields =>
      simp only [flattenArrItems] at hq
      rcases List.mem_append.1 hq with h | h
      · exact ih1 q h
      · exact ih2 q h
    | arr elems =>
      simp only [flattenArrItems] at hq
      rcases List.mem_append.1 hq with h | h
      · rcases List.mem_singleton.1 h with rfl
        rfl
      · exact ih2 q h
    | null =>
      simp only [flattenArrItems] at hq
      rcases List.mem_append.1 hq with h | h
      · rcases List.mem_singleton.1 h with rfl
        rfl
      · exact ih2 q h
    | bool b =>
      simp only [flattenArrItems] at hq
      rcases List.mem_append.1 hq with h | h
      · rcases List.mem_singleton.1 h with rfl
        rfl
      · exact ih2 q h
    | num n =>
      simp only [flattenArrItems] at hq
      rcases List.mem_append.1 hq with h | h
      · rcases List.mem_singleton.1 h with rfl
        rfl
      · exact ih2 q h
    | str s =>
      simp only [flattenArrItems] at hq
      rcases List.mem_append.1 hq with h | h
      · rcases List.mem_singleton.1 h with rfl
        rfl
      · exact ih2 q h

theorem flattenItems_val_not_obj {data : JsonVal} {pk sep : String}
    {q : String × JsonVal} (hq : q ∈ flattenItems data pk sep) : q.2.isObj = false := by
  cases data with
  | obj fields => exact flattenItems_val_not_obj_aux.1 fields pk sep q hq
  | arr elems => exact flattenItems_val_not_obj_aux.2 elems 0 pk sep q hq
  | null =>
    rcases List.mem_singleton.1 hq with rfl
    rfl
  | bool b =>
    rcases List.mem_singleton.1 hq with rfl
    rfl
  | num n =>
    rcases List.mem_singleton.1 hq with rfl
    rfl
  | str s =>
    rcases List.mem_singleton.1 hq with rfl
    rfl

theorem flatten_json_val_not_obj {data : JsonVal} {pk sep : String}
    {q : String × JsonVal} (hq : q ∈ flatten_json data pk sep) : q.2.isObj = false :=
  flattenItems_val_not_obj (mem_pyDict hq)

/-! ### First-seen column union -/

theorem foldl_firstSeen_nodup (l : List String) :
    ∀ acc : List String, acc.Nodup →
      (l.foldl (fun acc k => if k ∈ acc then acc else acc ++ [k]) acc).Nodup := by
  induction l with
  | nil => intro acc hacc; exact hacc
  | cons k rest ih =>
    intro acc hacc
    rw [List.foldl_cons]
    by_cases hk : k ∈ acc
    · rw [if_pos hk]
      exact ih acc hacc
    · rw [if_neg hk]
      exact ih (acc ++ [k]) (by simp [List.nodup_append, hacc, hk])

theorem mem_foldl_firstSeen (l : List String) :
    ∀ (acc : List String) (x : String),
      x ∈ l.foldl (fun acc k => if k ∈ acc then acc else acc ++ [k]) acc ↔
        x ∈ acc ∨ x ∈ l := by
  induction l with
  | nil => intro acc x; simp
  | cons k rest ih =>
    intro acc x
    rw [List.foldl_cons]
    by_cases hk : k ∈ acc
    · rw [if_pos hk, ih]
      constructor
      · rintro (h | h)
        · exact Or.inl h
        · exact Or.inr (List.mem_cons.2 (Or.inr h))
      · rintro (h | h)
        · exact Or.inl h
        · rcases List.mem_cons.1 h with rfl | h'
          · exact Or.inl hk
          · exact Or.inr h'
    · rw [if_neg hk, ih]
      simp only [List.mem_append, List.mem_singleton, List.mem_cons]
      tauto

theorem firstSeen_nodup (l : List String) : (firstSeen l).Nodup :=
  foldl_firstSeen_nodup l [] List.nodup_nil

theorem mem_firstSeen (l : List String) (x : String) : x ∈ firstSeen l ↔ x ∈ l := by
  unfold firstSeen
  rw [mem_foldl_firstSeen]
  simp

theorem firstSeen_length_eq_card (l : List String) :
    (firstSeen l).length = l.toFinset.card := by
  have h1 : (firstSeen l).toFinset = l.toFinset := by
    ext x
    simp [List.mem_toFinset, mem_firstSeen]
  rw [← List.toFinset_card_of_nodup (firstSeen_nodup l), h1]

/-! ### `dict(items)` is the identity on duplicate-free key lists -/

theorem any_keys_eq_false {k : String} {l : List (String × JsonVal)}
    (h : k ∉ l.map Prod.fst) : l.any (fun p => p.1 = k) = false := by
  rw [List.any_eq_false]
  intro p hp
  simp only [decide_eq_true_eq]
  exact fun he => h (List.mem_map.2 ⟨p, hp, he⟩)

theorem pyDict_foldl_nodup :
    ∀ (l acc : List (String × JsonVal)),
      ((acc ++ l).map Prod.fst).Nodup →
        l.foldl (fun d p => pyDictInsert d p.1 p.2) acc = acc ++ l := by
  intro l
  induction l with
  | nil => intro acc _; simp
  | cons p rest ih =>
    intro acc hnd
    obtain ⟨a, b⟩ := p
    have hre : (acc ++ [(a, b)]) ++ rest = acc ++ (a, b) :: rest := by simp
    have hnd' : (((acc ++ [(a, b)]) ++ rest).map Prod.fst).Nodup := by
      rw [hre]
      exact hnd
    have hsplit : ((acc.map Prod.fst) ++ (a :: rest.map Prod.fst)).Nodup := by
      simpa using hnd
    rcases List.nodup_append.1 hsplit with ⟨h1, h2, h3⟩
    have hna : a ∉ acc.map Prod.fst := fun hm => h3 hm (List.mem_cons_self a _)
    have hins : pyDictInsert acc a b = acc ++ [(a, b)] := by
      unfold pyDictInsert
      rw [if_neg (by simp [any_keys_eq_false hna])]
    rw [List.foldl_cons]
    show rest.foldl _ (pyDictInsert acc a b) = _
    rw [hins, ih (acc ++ [(a, b)]) hnd', hre]

theorem pyDict_eq_self {l : List (String × JsonVal)}
    (h : (l.map Prod.fst).Nodup) : pyDict l = l := by
  have hmain := pyDict_foldl_nodup l [] (by simpa using h)
  simpa using hmain

/-! ### Flattening an already-flat object -/

theorem flattenObjItems_flat {l : List (String × JsonVal)} (sep : String)
    (h : ∀ p ∈ l, p.2.isScalar = true) : flattenObjItems l "" sep = l := by
  induction l with
  | nil => simp [flattenObjItems]
  | cons p rest ih =>
    obtain ⟨k, v⟩ := p
    have hv := h (k, v) (List.mem_cons_self _ _)
    have hrest : ∀ p ∈ rest, p.2.isScalar = true :=
      fun p hp => h p (List.mem_cons.2 (Or.inr hp))
    cases v with
    | obj fields => simp [JsonVal.isScalar, JsonVal.isObj] at hv
    | arr elems => simp [JsonVal.isScalar, JsonVal.isArr] at hv
    | null => simp [flattenObjItems, mkKey, ih hrest]
    | bool b => simp [flattenObjItems, mkKey, ih hrest]
    | num n => simp [flattenObjItems, mkKey, ih hrest]
    | str s => simp [flattenObjItems, mkKey, ih hrest]

/-! ### Basic facts about the tabular result -/

theorem dfFromRecords_rows_length (recs : List (List (String × JsonVal))) :
    (dfFromRecords recs).rows.length = recs.length := by
  simp [dfFromRecords]

theorem dfFromRecords_columns (recs : List (List (String × JsonVal))) :
    (dfFromRecords recs).columns = firstSeen (recs.flatMap (fun r => r.map Prod.fst)) :=
  rfl

theorem dfFromRecords_rows_get (recs : List (List (String × JsonVal))) (j : Nat) :
    (dfFromRecords recs).rows[j]? =
      (recs[j]?).map (fun r => (dfFromRecords recs).columns.map (fun c => lookupVal c r)) := by
  simp [dfFromRecords]

/-! ### Small auxiliary facts used by the claim theorems -/

theorem isObj_eq_false_of_isScalar {v : JsonVal} (h : v.isScalar = true) :
    v.isObj = false := by
  cases v <;> simp_all [JsonVal.isScalar, JsonVal.isObj, JsonVal.isArr]

theorem isArr_eq_false_of_isScalar {v : JsonVal} (h : v.isScalar = true) :
    v.isArr = false := by
  cases v <;> simp_all [JsonVal.isScalar, JsonVal.isObj, JsonVal.isArr]

theorem append_ne_empty_left {s : String} (t : String) (h : s ≠ "") : s ++ t ≠ "" := by
  intro he
  have hd := congrArg String.data he
  simp at hd
  exact h (String.ext hd.1)

theorem mkKey_empty (sep k : String) : mkKey "" sep k = k := if_pos rfl

theorem mkKey_of_ne {pk : String} (sep k : String) (h : pk ≠ "") :
    mkKey pk sep k = pk ++ sep ++ k := if_neg h

/-! ### The claims -/

/-- C4: for every input whose JSON parse fails, `json_to_csv` fails with an
`InvalidJson` error carrying the parser's diagnostic message, and produces no
tabular result (the error branch carries no `Frame`). -/
theorem claim_C4_invalid_json (msg : String) (fn nd : Bool) :
    json_to_csv (.error msg) fn nd = .error (.invalidJson msg) := rfl

/-- C5: for every scalar root value, `json_to_csv` returns a tabular result
with exactly one column named `value` and exactly one row whose single cell
holds that scalar. -/
theorem claim_C5_scalar_root (v : JsonVal) (fn nd : Bool) (h : v.isScalar = true) :
    json_to_csv (.ok v) fn nd = .ok ⟨["value"], [[some v]]⟩ := by
  cases v with
  | obj fields => simp [JsonVal.isScalar, JsonVal.isObj] at h
  | arr elems => simp [JsonVal.isScalar, JsonVal.isArr] at h
  | null => rfl
  | bool b => rfl
  | num n => rfl
  | str s => rfl

theorem claim_C5_scalar_root_witness :
    (JsonVal.str "hello").isScalar = true ∧
      json_to_csv (.ok (.str "hello")) true true =
        .ok ⟨["value"], [[some (.str "hello")]]⟩ :=
  ⟨rfl, claim_C5_scalar_root (.str "hello") true true rfl⟩

/-- C10: for every scalar root value the result of `json_to_csv` is the same
under all four combinations of the `flatten_nested` and `normalize_data`
flags (the scalar branch ignores both flags). -/
theorem claim_C10_scalar_flag_independent (v : JsonVal) (fn nd fn' nd' : Bool)
    (h : v.isScalar = true) :
    json_to_csv (.ok v) fn nd = json_to_csv (.ok v) fn' nd' := by
  cases v with
  | obj fields => simp [JsonVal.isScalar, JsonVal.isObj] at h
  | arr elems => simp [JsonVal.isScalar, JsonVal.isArr] at h
  | null => rfl
  | bool b => rfl
  | num n => rfl
  | str s => rfl

theorem claim_C10_scalar_flag_independent_witness :
    (JsonVal.num 3).isScalar = true ∧
      json_to_csv (.ok (.num 3)) true true = json_to_csv (.ok (.num 3)) false false :=
  ⟨rfl, claim_C10_scalar_flag_independent (.num 3) true true false false rfl⟩

/-- C7: when two leaf paths collapse to the same flattened key (the key is
generated at least twice among the items), the flattened mapping binds that
key to the value of the later-encountered leaf: the lookup equals the LAST
generated value for the key (Python dict last-write-wins), and flattening
still succeeds (it is a total function). -/
theorem claim_C7_last_write_wins (data : JsonVal) (pk sep k : String)
    (_hcollide : 2 ≤ countKey k (flattenItems data pk sep)) :
    lookupVal k (flatten_json data pk sep) = lastVal k (flattenItems data pk sep) := by
  unfold flatten_json
  exact lookupVal_pyDict k _

theorem claim_C7_last_write_wins_witness :
    2 ≤ countKey "a_b"
        (flattenItems (.obj [("a", .obj [("b", .num 1)]), ("a_b", .num 2)]) "" "_") ∧
      lookupVal "a_b"
          (flatten_json (.obj [("a", .obj [("b", .num 1)]), ("a_b", .num 2)]) "" "_") =
        lastVal "a_b"
          (flattenItems (.obj [("a", .obj [("b", .num 1)]), ("a_b", .num 2)]) "" "_") := by
  have hitems :
      flattenItems (.obj [("a", .obj [("b", .num 1)]), ("a_b", .num 2)]) "" "_" =
        [("a_b", .num 1), ("a_b", .num 2)] := by
    simp [flattenItems, flattenObjItems, mkKey]
  refine ⟨by rw [hitems]; decide, ?_⟩
  exact claim_C7_last_write_wins (.obj [("a", .obj [("b", .num 1)]), ("a_b", .num 2)])
    "" "_" "a_b" (by rw [hitems]; decide)

/-- C9: flattening an object whose values are all scalars, with an empty path
prefix, is the identity: same keys in the same order bound to the same values
(the key-uniqueness hypothesis holds for every object produced by the JSON
parser). -/
theorem claim_C9_flat_identity (l : List (String × JsonVal)) (sep : String)
    (hscalar : ∀ p ∈ l, p.2.isScalar = true)
    (hkeys : (l.map Prod.fst).Nodup) :
    flatten_json (.obj l) "" sep = l := by
  unfold flatten_json
  rw [show flattenItems (.obj l) "" sep = flattenObjItems l "" sep from rfl,
    flattenObjItems_flat sep hscalar]
  exact pyDict_eq_self hkeys

theorem claim_C9_flat_identity_witness :
    (∀ p ∈ [("name", JsonVal.str "John"), ("age", JsonVal.num 30)], p.2.isScalar = true) ∧
      ((["name", "age"] : List String).Nodup) ∧
      flatten_json (.obj [("name", .str "John"), ("age", .num 30)]) "" "_" =
        [("name", .str "John"), ("age", .num 30)] := by
  refine ⟨?_, by decide, ?_⟩
  · intro p hp
    rcases List.mem_cons.1 hp with rfl | hp'
    · rfl
    · rcases List.mem_singleton.1 hp' with rfl
      rfl
  · exact claim_C9_flat_identity [("name", .str "John"), ("age", .num 30)] "_"
      (by
        intro p hp
        rcases List.mem_cons.1 hp with rfl | hp'
        · rfl
        · rcases List.mem_singleton.1 hp' with rfl
          rfl)
      (by decide)

/-- C2 as stated is false: flattening can bind a key to an ARRAY. For the
parsed document `{"a": [[1]]}` the flattened mapping binds `"a_0"` to the
nested array `[1]`, which is not a scalar (source line 24 appends non-dict
array elements as-is, including lists). -/
theorem claim_C2_counterexample :
    flatten_json (.obj [("a", .arr [.arr [.num 1]])]) "" "_" =
        [("a_0", .arr [.num 1])] ∧
      (JsonVal.arr [.num 1]).isScalar = false := by
  constructor
  · simp [flatten_json, flattenItems, flattenObjItems, flattenArrItems, mkKey,
      pyDict, pyDictInsert]
    rfl
  · rfl

/-- C2 amended: every value stored in the mapping returned by the flattener
is a scalar or an array — the flattened record never maps a key to a nested
OBJECT (arrays can appear, namely for array elements that are themselves
arrays). -/
theorem claim_C2_no_object_values (data : JsonVal) (pk sep : String)
    (q : String × JsonVal) (hq : q ∈ flatten_json data pk sep) :
    q.2.isObj = false :=
  flatten_json_val_not_obj hq

theorem claim_C2_no_object_values_witness :
    (("a_0", JsonVal.arr [.num 1]) ∈
        flatten_json (.obj [("a", .arr [.arr [.num 1]])]) "" "_") ∧
      (("a_0", JsonVal.arr [.num 1]) : String × JsonVal).2.isObj = false := by
  have hflat : flatten_json (.obj [("a", .arr [.arr [.num 1]])]) "" "_" =
      [("a_0", .arr [.num 1])] := by
    simp [flatten_json, flattenItems, flattenObjItems, flattenArrItems, mkKey,
      pyDict, pyDictInsert]
    rfl
  have hmem : ("a_0", JsonVal.arr [.num 1]) ∈
      flatten_json (.obj [("a", .arr [.arr [.num 1]])]) "" "_" := by
    rw [hflat]
    exact List.mem_singleton.2 rfl
  exact ⟨hmem, claim_C2_no_object_values _ "" "_" _ hmem⟩

/-- C8 as stated is false: for a top-level array with empty path prefix, a
non-object element at index `i` is NOT keyed by the bare decimal index. The
code (source line 32) computes `f"{parent_key}{sep}{i}"` unconditionally, so
with empty prefix the key is `"_0"`, not `"0"`. -/
theorem claim_C8_counterexample :
    flatten_json (.arr [.num 5]) "" "_" = [("_0", .num 5)] ∧
      lookupVal "0" (flatten_json (.arr [.num 5]) "" "_") = none := by
  have hflat : flatten_json (.arr [.num 5]) "" "_" = [("_0", .num 5)] := by
    simp [flatten_json, flattenItems, flattenArrItems, pyDict, pyDictInsert]
    rfl
  refine ⟨hflat, ?_⟩
  rw [hflat]
  rfl

/-- C8 amended: a non-object element at zero-based index `i` of a top-level
array flattened with empty path prefix is inserted under the key
`sep ++ i` — the separator is prepended to the decimal index even though the
prefix is empty (provided that key is generated only once). -/
theorem claim_C8_top_level_array_key (sep : String) (elems : List JsonVal)
    (i : Nat) (v : JsonVal)
    (hget : elems[i]? = some v) (hobj : v.isObj = false)
    (hcount : countKey (sep ++ toString i) (flattenItems (.arr elems) "" sep) = 1) :
    lookupVal (sep ++ toString i) (flatten_json (.arr elems) "" sep) = some v := by
  apply lookupVal_flatten_of_unique hcount
  have hm : (("" : String) ++ sep ++ toString (0 + i), v) ∈ flattenArrItems elems 0 "" sep :=
    mem_flattenArrItems_scalar hobj elems 0 i hget
  rw [Nat.zero_add, String.empty_append] at hm
  exact hm

theorem claim_C8_top_level_array_key_witness :
    ([JsonVal.num 5][0]? = some (JsonVal.num 5)) ∧
      (JsonVal.num 5).isObj = false ∧
      countKey ("_" ++ toString 0) (flattenItems (.arr [.num 5]) "" "_") = 1 ∧
      lookupVal ("_" ++ toString 0) (flatten_json (.arr [.num 5]) "" "_") =
        some (JsonVal.num 5) := by
  have hitems : flattenItems (.arr [.num 5]) "" "_" = [("_0", .num 5)] := by
    simp [flattenItems, flattenArrItems]
    rfl
  have hcount : countKey ("_" ++ toString 0) (flattenItems (.arr [.num 5]) "" "_") = 1 := by
    rw [hitems]
    rfl
  exact ⟨rfl, rfl, hcount,
    claim_C8_top_level_array_key "_" [.num 5] 0 (.num 5) rfl rfl hcount⟩

/-- C3: for an array of objects converted with `flatten_nested = true`,
conversion succeeds (under either `normalize_data` flag) with exactly one row
per array element; the columns are duplicate-free, their count is the number
of distinct flattened keys across all elements, their order is first-seen
order (`firstSeen` by definition of `dfFromRecords`); each row is its
record's lookup along the column list, and a record lacking a column yields
an empty (`none`) cell. -/
theorem claim_C3_array_flatten (items : List JsonVal) (nd : Bool)
    (_hobjs : ∀ x ∈ items, x.isObj = true) :
    json_to_csv (.ok (.arr items)) true nd = .ok (dfFromRecords (items.map recordOf)) ∧
    (dfFromRecords (items.map recordOf)).rows.length = items.length ∧
    (dfFromRecords (items.map recordOf)).columns.Nodup ∧
    (dfFromRecords (items.map recordOf)).columns.length =
      ((items.map recordOf).flatMap (fun r => r.map Prod.fst)).toFinset.card ∧
    (∀ j : Nat, (dfFromRecords (items.map recordOf)).rows[j]? =
      ((items.map recordOf)[j]?).map
        (fun r => (dfFromRecords (items.map recordOf)).columns.map
          (fun c => lookupVal c r))) ∧
    (∀ r ∈ items.map recordOf, ∀ c : String,
      c ∉ r.map Prod.fst → lookupVal c r = none) := by
  refine ⟨rfl, ?_, ?_, ?_, ?_, ?_⟩
  · rw [dfFromRecords_rows_length, List.length_map]
  · rw [dfFromRecords_columns]
    exact firstSeen_nodup _
  · rw [dfFromRecords_columns, firstSeen_length_eq_card]
  · intro j
    exact dfFromRecords_rows_get _ j
  · intro r _ c hc
    exact lookupVal_eq_none_of_not_mem_keys hc

theorem claim_C3_array_flatten_witness :
    (∀ x ∈ [JsonVal.obj [("a", .num 1)], JsonVal.obj [("b", .num 2)]], x.isObj = true) ∧
    (json_to_csv (.ok (.arr [JsonVal.obj [("a", .num 1)], JsonVal.obj [("b", .num 2)]]))
        true true =
      .ok (dfFromRecords
        ([JsonVal.obj [("a", .num 1)], JsonVal.obj [("b", .num 2)]].map recordOf)) ∧
    (dfFromRecords
        ([JsonVal.obj [("a", .num 1)], JsonVal.obj [("b", .num 2)]].map recordOf)).rows.length =
      [JsonVal.obj [("a", .num 1)], JsonVal.obj [("b", .num 2)]].length ∧
    (dfFromRecords
        ([JsonVal.obj [("a", .num 1)], JsonVal.obj [("b", .num 2)]].map recordOf)).columns.Nodup ∧
    (dfFromRecords
        ([JsonVal.obj [("a", .num 1)], JsonVal.obj [("b", .num 2)]].map recordOf)).columns.length =
      (([JsonVal.obj [("a", .num 1)], JsonVal.obj [("b", .num 2)]].map recordOf).flatMap
        (fun r => r.map Prod.fst)).toFinset.card ∧
    (∀ j : Nat,
      (dfFromRecords
          ([JsonVal.obj [("a", .num 1)], JsonVal.obj [("b", .num 2)]].map recordOf)).rows[j]? =
        (([JsonVal.obj [("a", .num 1)], JsonVal.obj [("b", .num 2)]].map recordOf)[j]?).map
          (fun r =>
            (dfFromRecords
                ([JsonVal.obj [("a", .num 1)],
                  JsonVal.obj [("b", .num 2)]].map recordOf)).columns.map
              (fun c => lookupVal c r))) ∧
    (∀ r ∈ [JsonVal.obj [("a", .num 1)], JsonVal.obj [("b", .num 2)]].map recordOf,
      ∀ c : String, c ∉ r.map Prod.fst → lookupVal c r = none)) :=
  ⟨by decide,
    claim_C3_array_flatten [JsonVal.obj [("a", .num 1)], JsonVal.obj [("b", .num 2)]] true
      (by decide)⟩

/-- C6: for every JSON object and every combination of the two flags,
converting the object gives the same tabular result as converting the
one-element array holding it, and that result has exactly one row. -/
theorem claim_C6_object_as_singleton_array (fields : List (String × JsonVal))
    (fn nd : Bool) :
    json_to_csv (.ok (.obj fields)) fn nd = json_to_csv (.ok (.arr [.obj fields])) fn nd ∧
    ∃ F : Frame, json_to_csv (.ok (.obj fields)) fn nd = .ok F ∧ F.rows.length = 1 := by
  constructor
  · cases fn with
    | true => rfl
    | false =>
      cases nd with
      | true => rfl
      | false => rfl
  · cases fn with
    | true => exact ⟨dfFromRecords [flatten_json (.obj fields) "" "_"], rfl, rfl⟩
    | false =>
      cases nd with
      | true => exact ⟨dfFromRecords [normalizeFields fields ""], rfl, rfl⟩
      | false => exact ⟨dfFromRecords [fields], rfl, rfl⟩

/-- C1: a scalar leaf at JSON path `p1.p2[i].p3` surfaces in the flattened
mapping under the key `p1 ++ sep ++ p2 ++ sep ++ i ++ sep ++ p3` (with the
default separator `_` this is `p1_p2_i_p3`), for any separator, whenever that
flattened key is generated exactly once (the spec's separate last-write-wins
clause governs colliding keys) and `p1` is a nonempty field name. -/
theorem claim_C1_nested_path_key (sep p1 p2 p3 : String)
    (l1 l2 l3 : List (String × JsonVal)) (a : List JsonVal) (i : Nat) (v : JsonVal)
    (hp1 : p1 ≠ "")
    (h1 : (p1, JsonVal.obj l2) ∈ l1)
    (h2 : (p2, JsonVal.arr a) ∈ l2)
    (h3 : a[i]? = some (JsonVal.obj l3))
    (h4 : (p3, v) ∈ l3)
    (hv : v.isScalar = true)
    (huniq : countKey (p1 ++ sep ++ p2 ++ sep ++ toString i ++ sep ++ p3)
        (flattenItems (.obj l1) "" sep) = 1) :
    lookupVal (p1 ++ sep ++ p2 ++ sep ++ toString i ++ sep ++ p3)
      (flatten_json (.obj l1) "" sep) = some v := by
  apply lookupVal_flatten_of_unique huniq
  have hbase : (p1 ++ sep ++ p2 ++ sep ++ toString i : String) ≠ "" :=
    append_ne_empty_left (toString i)
      (append_ne_empty_left sep (append_ne_empty_left p2 (append_ne_empty_left sep hp1)))
  have hm4 : (p1 ++ sep ++ p2 ++ sep ++ toString i ++ sep ++ p3, v) ∈
      flattenObjItems l3 (p1 ++ sep ++ p2 ++ sep ++ toString i) sep := by
    have h := mem_flattenObjItems_scalar (p1 ++ sep ++ p2 ++ sep ++ toString i) sep h4
      (isObj_eq_false_of_isScalar hv) (isArr_eq_false_of_isScalar hv)
    rwa [mkKey_of_ne sep p3 hbase] at h
  have hm3 : (p1 ++ sep ++ p2 ++ sep ++ toString i ++ sep ++ p3, v) ∈
      flattenArrItems a 0 (p1 ++ sep ++ p2) sep := by
    apply mem_flattenArrItems_of_obj a 0 i h3
    rw [Nat.zero_add]
    exact hm4
  have hm2 : (p1 ++ sep ++ p2 ++ sep ++ toString i ++ sep ++ p3, v) ∈
      flattenObjItems l2 p1 sep := by
    apply mem_flattenObjItems_of_arr p1 sep h2
    rw [mkKey_of_ne sep p2 hp1]
    exact hm3
  show (p1 ++ sep ++ p2 ++ sep ++ toString i ++ sep ++ p3, v) ∈ flattenObjItems l1 "" sep
  apply mem_flattenObjItems_of_obj "" sep h1
  rw [mkKey_empty]
  exact hm2

theorem claim_C1_nested_path_key_witness :
    ("p1" : String) ≠ "" ∧
    (("p1", JsonVal.obj [("p2", .arr [.obj [("p3", .num 7)]])]) ∈
      [("p1", JsonVal.obj [("p2", .arr [.obj [("p3", .num 7)]])])]) ∧
    (("p2", JsonVal.arr [.obj [("p3", .num 7)]]) ∈
      [("p2", JsonVal.arr [.obj [("p3", .num 7)]])]) ∧
    ([JsonVal.obj [("p3", .num 7)]][0]? = some (JsonVal.obj [("p3", .num 7)])) ∧
    (("p3", JsonVal.num 7) ∈ [("p3", JsonVal.num 7)]) ∧
    (JsonVal.num 7).isScalar = true ∧
    countKey ("p1" ++ "_" ++ "p2" ++ "_" ++ toString 0 ++ "_" ++ "p3")
      (flattenItems (.obj [("p1", .obj [("p2", .arr [.obj [("p3", .num 7)]])])]) "" "_") = 1 ∧
    lookupVal ("p1" ++ "_" ++ "p2" ++ "_" ++ toString 0 ++ "_" ++ "p3")
      (flatten_json (.obj [("p1", .obj [("p2", .arr [.obj [("p3", .num 7)]])])]) "" "_") =
      some (JsonVal.num 7) := by
  have hitems :
      flattenItems (.obj [("p1", .obj [("p2", .arr [.obj [("p3", .num 7)]])])]) "" "_" =
        [("p1_p2_0_p3", .num 7)] := by
    simp [flattenItems, flattenObjItems, flattenArrItems, mkKey]
    rfl
  have hcount : countKey ("p1" ++ "_" ++ "p2" ++ "_" ++ toString 0 ++ "_" ++ "p3")
      (flattenItems (.obj [("p1", .obj [("p2", .arr [.obj [("p3", .num 7)]])])]) "" "_") = 1 := by
    rw [hitems]
    decide
  exact ⟨by decide, List.mem_singleton.2 rfl, List.mem_singleton.2 rfl, rfl,
    List.mem_singleton.2 rfl, rfl, hcount,
    claim_C1_nested_path_key "_" "p1" "p2" "p3"
      [("p1", .obj [("p2", .arr [.obj [("p3", .num 7)]])])]
      [("p2", .arr [.obj [("p3", .num 7)]])] [("p3", .num 7)]
      [.obj [("p3", .num 7)]] 0 (.num 7)
      (by decide) (List.mem_singleton.2 rfl) (List.mem_singleton.2 rfl) rfl
      (List.mem_singleton.2 rfl) rfl hcount⟩

end JsonToCsv
